import Mathlib

/-!
Shallow embedding of `src/scan.py` (dupenuke): a duplicate-file scanner that
walks a directory tree, computes SHA-256 content checksums in worker threads,
stores `(path, checksum, size, file_type)` rows in a SQLite table `files`, and
queries that table for duplicate groups, a summary, and a deletion plan.

Bytes are modelled as `Nat` (each `< 256` where produced), 32-bit machine words
as `Nat` with explicit reduction `% 2 ^ 32`, SQL result sets as Lean lists in
row-insertion order, and fallible operations as `Option`.

The sqlite3 connection is modelled together with its thread affinity: CPython's
`sqlite3.connect` (with the default `check_same_thread=True`) returns a
connection that only its creating thread may use — using it from any other
thread raises `sqlite3.ProgrammingError`. `setup_database` runs on the main
thread, while `process_file` runs on `ThreadPoolExecutor` pool threads, which
are always distinct from the submitting thread; the `as_completed` loop never
calls `future.result()`, so a worker's exception is silently discarded.
-/

namespace DupeNuke

/-! ## SHA-256 (the semantics of Python's `hashlib.sha256`)

A complete executable SHA-256 (FIPS 180-4) over byte lists, with 32-bit words
represented as `Nat` reduced modulo `2 ^ 32` at every arithmetic step. -/

namespace SHA256

/-- `2 ^ 32`, the modulus of 32-bit word arithmetic. -/
def w32 : Nat := 4294967296

/-- All-ones 32-bit mask, used for bitwise complement of a 32-bit word. -/
def mask32 : Nat := 4294967295

/-- Addition modulo `2 ^ 32`. -/
def add32 (a b : Nat) : Nat := (a + b) % w32

/-- Right rotation of a 32-bit word by `n` bits. -/
def rotr (n x : Nat) : Nat := ((x >>> n) ||| (x <<< (32 - n))) % w32

/-- σ₀ of the SHA-256 message schedule. -/
def ssig0 (x : Nat) : Nat := (rotr 7 x) ^^^ (rotr 18 x) ^^^ (x >>> 3)

/-- σ₁ of the SHA-256 message schedule. -/
def ssig1 (x : Nat) : Nat := (rotr 17 x) ^^^ (rotr 19 x) ^^^ (x >>> 10)

/-- Σ₀ of the SHA-256 compression function. -/
def bsig0 (x : Nat) : Nat := (rotr 2 x) ^^^ (rotr 13 x) ^^^ (rotr 22 x)

/-- Σ₁ of the SHA-256 compression function. -/
def bsig1 (x : Nat) : Nat := (rotr 6 x) ^^^ (rotr 11 x) ^^^ (rotr 25 x)

/-- The 64 SHA-256 round constants, written in decimal. -/
def K : List Nat :=
  [1116352408, 1899447441, 3049323471, 3921009573, 961987163, 1508970993,
   2453635748, 2870763221, 3624381080, 310598401, 607225278, 1426881987,
   1925078388, 2162078206, 2614888103, 3248222580, 3835390401, 4022224774,
   264347078, 604807628, 770255983, 1249150122, 1555081692, 1996064986,
   2554220882, 2821834349, 2952996808, 3210313671, 3336571891, 3584528711,
   113926993, 338241895, 666307205, 773529912, 1294757372, 1396182291,
   1695183700, 1986661051, 2177026350, 2456956037, 2730485921, 2820302411,
   3259730800, 3345764771, 3516065817, 3600352804, 4094571909, 275423344,
   430227734, 506948616, 659060556, 883997877, 958139571, 1322822218,
   1537002063, 1747873779, 1955562222, 2024104815, 2227730452, 2361852424,
   2428436474, 2756734187, 3204031479, 3329325298]

/-- The SHA-256 initial hash value (eight 32-bit words), written in decimal. -/
def H0 : List Nat :=
  [1779033703, 3144134277, 1013904242, 2773480762,
   1359893119, 2600822924, 528734635, 1541459225]

/-- `n` bytes of `x` in big-endian order (truncating `x` to `n` bytes). -/
def toBytesBE : Nat → Nat → List Nat
  | 0, _ => []
  | n + 1, x => toBytesBE n (x / 256) ++ [x % 256]

/-- Group a byte list into big-endian 32-bit words, four bytes per word. -/
def bytesToWords : List Nat → List Nat
  | b0 :: b1 :: b2 :: b3 :: rest =>
      (((b0 * 256 + b1) * 256 + b2) * 256 + b3) :: bytesToWords rest
  | _ => []

/-- Extend a message-schedule word list by `k` further words
(`w[t] = σ₁ w[t-2] + w[t-7] + σ₀ w[t-15] + w[t-16]`). -/
def extendWords : List Nat → Nat → List Nat
  | ws, 0 => ws
  | ws, k + 1 =>
      let m := ws.length
      let w := add32 (add32 (ssig1 (ws.getD (m - 2) 0)) (ws.getD (m - 7) 0))
                     (add32 (ssig0 (ws.getD (m - 15) 0)) (ws.getD (m - 16) 0))
      extendWords (ws ++ [w]) k

/-- One SHA-256 round: state `[a,b,c,d,e,f,g,h]` and a pair
(round constant, schedule word). -/
def compressStep (st : List Nat) (kw : Nat × Nat) : List Nat :=
  let a := st.getD 0 0
  let b := st.getD 1 0
  let c := st.getD 2 0
  let d := st.getD 3 0
  let e := st.getD 4 0
  let f := st.getD 5 0
  let g := st.getD 6 0
  let h := st.getD 7 0
  let ch := Nat.xor (e &&& f) ((e ^^^ mask32) &&& g)
  let t1 := add32 (add32 (add32 h (bsig1 e)) (add32 ch kw.1)) kw.2
  let maj := Nat.xor (Nat.xor (a &&& b) (a &&& c)) (b &&& c)
  let t2 := add32 (bsig0 a) maj
  [add32 t1 t2, a, b, c, add32 d t1, e, f, g]

/-- Process one 64-byte block against the running hash value. -/
def compressBlock (h : List Nat) (block : List Nat) : List Nat :=
  let ws := extendWords (bytesToWords block) 48
  let st := (K.zip ws).foldl compressStep h
  List.zipWith add32 h st

/-- SHA-256 padding: `0x80`, zeros to 56 mod 64, then the 64-bit big-endian
bit length. -/
def padMessage (msg : List Nat) : List Nat :=
  let len := msg.length
  let padZeros := (119 - len % 64) % 64
  msg ++ [0x80] ++ List.replicate padZeros 0 ++ toBytesBE 8 (len * 8)

/-- Split a byte list into successive `n`-byte pieces. `fuel` only bounds the
recursion; any `fuel` at least `l.length` gives the full decomposition. -/
def chunksAux (n : Nat) : Nat → List Nat → List (List Nat)
  | _, [] => []
  | 0, _ :: _ => []
  | fuel + 1, x :: xs =>
      if n = 0 then [] else ((x :: xs).take n) :: chunksAux n fuel ((x :: xs).drop n)

/-- Split a byte list into successive `n`-byte pieces. -/
def chunks (n : Nat) (l : List Nat) : List (List Nat) := chunksAux n l.length l

/-- The 32-byte SHA-256 digest of a byte list. -/
def sha256digest (msg : List Nat) : List Nat :=
  ((chunks 64 (padMessage msg)).foldl compressBlock H0).flatMap (toBytesBE 4)

/-- The lowercase hex character of a digit value below 16. -/
def hexDigit (n : Nat) : Char := Char.ofNat (if n < 10 then n + 48 else n + 87)

/-- Two lowercase hex characters for one byte. -/
def byteToHex (b : Nat) : List Char := [hexDigit (b / 16), hexDigit (b % 16)]

/-- The lowercase hex encoding of the SHA-256 digest, as `hexdigest()` returns it. -/
def sha256hex (msg : List Nat) : String := String.mk ((sha256digest msg).flatMap byteToHex)

end SHA256

/-! ## Filesystem and store model -/

/-- One regular file as the Directory Enumerator yields it: its path, the size
`os.path.getsize` reports at enumeration time, and its readable content —
`none` when opening or reading the file raises (the `except` branch of
`calculate_checksum`), `some bytes` when the whole content can be read. -/
structure FsFile where
  path : String
  size : Nat
  content : Option (List Nat)
deriving DecidableEq

/-- One row of the SQLite table `files` (the `id` column is implicit in the
list position of the row). -/
structure FileRecord where
  path : String
  checksum : String
  size : Nat
  file_type : String
deriving DecidableEq

/-- Index of the last occurrence of `c`, as Python's `str.rfind`. -/
def rfindIdx (c : Char) : List Char → Option Nat
  | [] => none
  | x :: xs =>
      match rfindIdx c xs with
      | some i => some (i + 1)
      | none => if x = c then some 0 else none

/-- The extension part of `os.path.splitext` (posix rules): the suffix from the
last dot, provided that dot lies after the last separator and the base name has
some non-dot character before it. -/
def splitextExt (p : List Char) : List Char :=
  let sepIndex : Int := match rfindIdx '/' p with | some i => (i : Int) | none => -1
  let dotIndex : Int := match rfindIdx '.' p with | some i => (i : Int) | none => -1
  if sepIndex < dotIndex then
    let nameStart := (sepIndex + 1).toNat
    let di := dotIndex.toNat
    if ((p.drop nameStart).take (di - nameStart)).any (fun ch => ch ≠ '.') then p.drop di
    else []
  else []

/-- `os.path.splitext(file_path)[1].lower()` as `process_file` computes the
`file_type` column. -/
def file_type_of (path : String) : String :=
  String.mk ((splitextExt path.toList).map Char.toLower)

/-- The chunked read loop of `calculate_checksum`:
`iter(lambda: f.read(chunk_size), b'')`. A read at end-of-file returns the
empty chunk and stops the loop, as does `f.read(0)`. -/
def readChunks (chunk_size : Nat) (bytes : List Nat) : List (List Nat) :=
  SHA256.chunksAux chunk_size bytes.length bytes

/-- `hashlib`'s incremental `update`: per its documented semantics,
`m.update(a); m.update(b)` is equivalent to `m.update(a + b)`, so the hash
object's state is the byte sequence absorbed so far. -/
def hashlib_update (state chunk : List Nat) : List Nat := state ++ chunk

/-- `calculate_checksum(file_path, chunk_size)` from `src/scan.py` (the source
defaults `chunk_size` to 4096): feed the file's content chunk by chunk into a
SHA-256 accumulator and return the hex digest; return `None` when opening or
reading raises. -/
def calculate_checksum (file : FsFile) (chunk_size : Nat) : Option String :=
  match file.content with
  | none => none
  | some bytes =>
      some (SHA256.sha256hex ((readChunks chunk_size bytes).foldl hashlib_update []))

/-- Python truthiness of `calculate_checksum`'s result, as tested by
`if checksum:` in `process_file`: `None` and the empty string are falsy. -/
def pyTruthy : Option String → Bool
  | none => false
  | some s => !(s = "")

/-- The row `process_file` inserts for a file whose checksum came back `s`. -/
def mkRecord (f : FsFile) (s : String) : FileRecord :=
  { path := f.path, checksum := s, size := f.size, file_type := file_type_of f.path }

/-- The sqlite3 connection `setup_database` returns: the rows of the `files`
table plus the identity of the thread that created the connection. CPython's
sqlite3 (default `check_same_thread=True`) allows only the creating thread to
use the connection. -/
structure Connection where
  rows : List FileRecord
  owner : Nat
deriving DecidableEq

/-- The main thread, on which `__main__` calls `setup_database`. -/
def mainThread : Nat := 0

/-- `setup_database()` as run by `__main__` on the main thread:
`sqlite3.connect('duplicates.db')` opens or creates the database file and
`CREATE TABLE IF NOT EXISTS files ...` creates the table only when it is
absent, keeping any rows the file already holds — nothing clears the table.
`prior` is the table content the database file carries from earlier writers
(`none` = no database file yet); the returned connection belongs to the
creating (main) thread. -/
def setup_database (prior : Option (List FileRecord)) : Connection :=
  { rows := (match prior with | none => [] | some rows => rows),
    owner := mainThread }

/-- `conn.cursor()` followed by `cursor.execute(INSERT ...)` on thread `t`:
when `t` is not the connection's creating thread, CPython raises
`sqlite3.ProgrammingError` (the `check_same_thread` default) before any write
happens — modelled as `none`; on the owner thread the row is appended. -/
def insert_row (conn : Connection) (t : Nat) (r : FileRecord) : Option Connection :=
  if t = conn.owner then some { conn with rows := conn.rows ++ [r] } else none

/-- `process_file(file_path, file_size, conn, lock)` as executed on pool
thread `t`: one `calculate_checksum` call; if the digest is truthy, take the
lock and attempt the `INSERT`. An exception from the cursor propagates out of
`process_file` into the worker's future, and `scan_directory`'s `as_completed`
loop never calls `future.result()`, so it is swallowed and the connection is
left unchanged. -/
def process_file (t : Nat) (f : FsFile) (conn : Connection) : Connection :=
  match calculate_checksum f 4096 with
  | none => conn
  | some s =>
      if s = "" then conn
      else
        match insert_row conn t (mkRecord f s) with
        | some conn2 => conn2
        | none => conn

/-- The scan pass of `scan_directory(directory, conn)` over an already
materialized `file_list`: the i-th submitted task runs `process_file` on pool
thread `threadOf i`, one worker completion order linearized as list order. -/
def scan_directory (threadOf : Nat → Nat) (conn : Connection) (files : List FsFile) :
    Connection :=
  (files.enumFrom 0).foldl (fun c p => process_file (threadOf p.1) p.2 c) conn

/-- `scan_directory` instrumented with the number of `calculate_checksum`
calls: `process_file` invokes it exactly once per submitted file. -/
def scan_directory_count (threadOf : Nat → Nat) (conn : Connection) (files : List FsFile) :
    Connection × Nat :=
  (files.enumFrom 0).foldl
    (fun st p => (process_file (threadOf p.1) p.2 st.1, st.2 + 1)) (conn, 0)

/-- A concrete pool-thread assignment: task `i` runs on pool thread `i + 1`.
`ThreadPoolExecutor` never runs a submitted task on the submitting thread, so
every pool thread is distinct from the main thread; the ids are arbitrary and
only fixed here so closed statements can evaluate. -/
def poolThreads : Nat → Nat := fun i => i + 1

/-! ## Queries over the store -/

/-- Number of rows of the table carrying checksum `c`. -/
def countChecksum (store : List FileRecord) (c : String) : Nat :=
  (store.filter (fun r => r.checksum = c)).length

/-- Sum of the `size` column over the rows carrying checksum `c`. -/
def sizeSum (store : List FileRecord) (c : String) : Nat :=
  ((store.filter (fun r => r.checksum = c)).map (fun r => r.size)).sum

/-- The distinct checksums of the table in first-occurrence order, the grouping
keys of `GROUP BY checksum`. -/
def distinctChecksums (store : List FileRecord) : List String :=
  store.foldl (fun acc r => if r.checksum ∈ acc then acc else acc ++ [r.checksum]) []

/-- `find_duplicates(conn)`:
`SELECT checksum, COUNT(*), SUM(size) FROM files GROUP BY checksum HAVING COUNT(*) > 1`. -/
def find_duplicates (store : List FileRecord) : List (String × Nat × Nat) :=
  (distinctChecksums store).filterMap (fun c =>
    if 2 ≤ countChecksum store c then some (c, countChecksum store c, sizeSum store c)
    else none)

/-- `sum(item[1] - 1 for item in duplicates)` of `display_summary`. -/
def total_duplicates (store : List FileRecord) : Nat :=
  ((find_duplicates store).map (fun g => g.2.1 - 1)).sum

/-- `sum(item[2] - item[2] // item[1] for item in duplicates)` of
`display_summary` (Python `//` on nonnegative ints is `Nat` division). -/
def total_space_recovered (store : List FileRecord) : Nat :=
  ((find_duplicates store).map (fun g => g.2.2 - g.2.2 / g.2.1)).sum

/-- `SELECT path FROM files WHERE checksum = ?` of `delete_duplicates`: the
paths carrying `c`, in row-insertion order. -/
def recordsWithChecksum (store : List FileRecord) (c : String) : List String :=
  (store.filter (fun r => r.checksum = c)).map (fun r => r.path)

/-- The deletion plan of `delete_duplicates(conn)`: per duplicate group, the
first fetched path (`paths[0]`) is implicitly kept and the rest (`paths[1:]`)
are the deletion candidates offered for confirmation. The interactive
confirmation prompt and the actual unlinking are external collaborators. -/
def delete_duplicates_plan (store : List FileRecord) : List (String × String × List String) :=
  (find_duplicates store).map (fun g =>
    let paths := recordsWithChecksum store g.1
    (g.1, paths.headD "", paths.drop 1))

/-! ## Program lifecycle -/

/-- One program run's scan against the `duplicates.db` state left by earlier
writers (`none` = no database file yet): `setup_database` on the main thread,
then the pool-threaded scan pass. -/
def run_program (prior : Option (List FileRecord)) (threadOf : Nat → Nat)
    (files : List FsFile) : Connection :=
  scan_directory threadOf (setup_database prior) files

/-- `os.walk(root)` materialized: a root that does not exist or is not a
directory is modelled as `none` — with the default `onerror=None`, `os.walk`
swallows the listing error and yields no entries at all. -/
def walk_files (root : Option (List FsFile)) : List FsFile := root.getD []

/-- What a run of `__main__` observably produces in the model. -/
structure RunOutcome where
  exitCode : Nat
  store : List FileRecord
deriving DecidableEq

/-- The `__main__` block, volume listing and interactive prompts abstracted as
external collaborators (the deletion prompt answered no): open the store, scan
the chosen root, summarize, close. When `sqlite3.connect` fails the exception
is uncaught and the interpreter exits non-zero; nothing else in the pipeline
raises — in particular a nonexistent root just yields an empty walk. -/
def run_main (store_openable : Bool) (root : Option (List FsFile)) : RunOutcome :=
  if store_openable then
    { exitCode := 0,
      store := (scan_directory poolThreads (setup_database none) (walk_files root)).rows }
  else
    { exitCode := 1, store := [] }

/-! ## Insert-failure model (for the retry claim) -/

/-- Store-fault abstraction of the scan pass, for stating the insert-failure
policy: the table is a plain row list and the `k`-th `INSERT` statement
(0-based, in processing order) raises when `insertOk k = false`, whatever the
cause. The body of `process_file` attempts the insert exactly once — there is
no retry loop — and an exception propagates into the worker's future; the
`as_completed` loop never calls `future.result()`, so the exception is
discarded and the remaining files are processed. Returns the final store and
the number of insert attempts made. -/
def scan_with_store_faults (insertOk : Nat → Bool) (files : List FsFile) :
    List FileRecord × Nat :=
  files.foldl
    (fun st f =>
      match calculate_checksum f 4096 with
      | none => st
      | some s =>
          if s = "" then st
          else if insertOk st.2 then (st.1 ++ [mkRecord f s], st.2 + 1)
          else (st.1, st.2 + 1))
    ([], 0)

/-- The rows the scan pass derives from the file list and would insert were
the store writable from the workers: one per readable file, in processing
order. -/
def successRecords (files : List FsFile) : List FileRecord :=
  files.filterMap (fun f => (calculate_checksum f 4096).map (mkRecord f))

/-! ## Digest shape lemmas -/

namespace SHA256

theorem compressStep_length (st : List Nat) (kw : Nat × Nat) :
    (compressStep st kw).length = 8 := rfl

theorem foldl_compressStep_length (l : List (Nat × Nat)) :
    ∀ st : List Nat, st.length = 8 → (l.foldl compressStep st).length = 8 := by
  induction l with
  | nil => intro st h; exact h
  | cons a l ih => intro st _; exact ih (compressStep st a) (compressStep_length st a)

theorem compressBlock_length (h : List Nat) (b : List Nat) (hh : h.length = 8) :
    (compressBlock h b).length = 8 := by
  unfold compressBlock
  rw [List.length_zipWith, hh, foldl_compressStep_length _ h hh]
  exact Nat.min_self 8

theorem foldl_compressBlock_length (blocks : List (List Nat)) :
    ∀ h : List Nat, h.length = 8 → (blocks.foldl compressBlock h).length = 8 := by
  induction blocks with
  | nil => intro h hh; exact hh
  | cons b bs ih => intro h hh; exact ih (compressBlock h b) (compressBlock_length h b hh)

theorem toBytesBE_length (n : Nat) : ∀ x : Nat, (toBytesBE n x).length = n := by
  induction n with
  | zero => intro x; rfl
  | succ m ih => intro x; simp [toBytesBE, ih]

theorem length_flatMap_const {α β : Type} (f : α → List β) (k : Nat)
    (hf : ∀ a, (f a).length = k) : ∀ l : List α, (l.flatMap f).length = l.length * k := by
  intro l
  induction l with
  | nil => simp
  | cons a l ih => simp [List.flatMap_cons, ih, hf a, Nat.succ_mul, Nat.add_comm]

theorem sha256digest_length (msg : List Nat) : (sha256digest msg).length = 32 := by
  unfold sha256digest
  rw [length_flatMap_const (toBytesBE 4) 4 (fun a => toBytesBE_length 4 a),
    foldl_compressBlock_length _ H0 rfl]

theorem sha256hex_length (msg : List Nat) : (sha256hex msg).length = 64 := by
  show (String.mk ((sha256digest msg).flatMap byteToHex)).length = 64
  have h2 : ∀ b : Nat, (byteToHex b).length = 2 := fun b => rfl
  have := length_flatMap_const byteToHex 2 h2 (sha256digest msg)
  rw [sha256digest_length] at this
  simpa [String.length] using this

theorem sha256hex_ne_empty (msg : List Nat) : sha256hex msg ≠ "" := by
  intro h
  have h64 := sha256hex_length msg
  rw [h] at h64
  simp [String.length] at h64

theorem chunksAux_flatten (n : Nat) (hn : 0 < n) :
    ∀ fuel : Nat, ∀ l : List Nat, l.length ≤ fuel → (chunksAux n fuel l).flatten = l := by
  intro fuel
  induction fuel with
  | zero =>
      intro l hl
      cases l with
      | nil => rfl
      | cons x xs => simp at hl
  | succ m ih =>
      intro l hl
      cases l with
      | nil => rfl
      | cons x xs =>
          rw [chunksAux, if_neg (Nat.pos_iff_ne_zero.mp hn)]
          have hdrop : ((x :: xs).drop n).length ≤ m := by
            rw [List.length_drop]
            simp only [List.length_cons] at hl ⊢
            omega
          rw [List.flatten_cons, ih ((x :: xs).drop n) hdrop, List.take_append_drop]

end SHA256

theorem readChunks_flatten (n : Nat) (hn : 0 < n) (bytes : List Nat) :
    (readChunks n bytes).flatten = bytes :=
  SHA256.chunksAux_flatten n hn bytes.length bytes (Nat.le_refl _)

theorem foldl_hashlib_update (cs : List (List Nat)) :
    ∀ acc : List Nat, cs.foldl hashlib_update acc = acc ++ cs.flatten := by
  induction cs with
  | nil => intro acc; simp
  | cons c cs ih => intro acc; simp [hashlib_update, ih, List.append_assoc]

/-- The chunked read of a readable file reassembles its full content: the hex
digest is the SHA-256 of the whole byte sequence. -/
theorem calculate_checksum_eq (f : FsFile) (b : List Nat) (h : f.content = some b) :
    calculate_checksum f 4096 = some (SHA256.sha256hex b) := by
  unfold calculate_checksum
  rw [h]
  show some (SHA256.sha256hex ((readChunks 4096 b).foldl hashlib_update [])) = _
  rw [foldl_hashlib_update, readChunks_flatten 4096 (by omega) b, List.nil_append]

theorem calculate_checksum_ne_empty (f : FsFile) (n : Nat) (s : String)
    (h : calculate_checksum f n = some s) : s ≠ "" := by
  unfold calculate_checksum at h
  cases hc : f.content with
  | none => rw [hc] at h; exact absurd h (by simp)
  | some b =>
      rw [hc] at h
      have hs : s = SHA256.sha256hex ((readChunks n b).foldl hashlib_update []) := by
        exact (Option.some.injEq _ _ ▸ h).symm
      rw [hs]
      exact SHA256.sha256hex_ne_empty _

theorem process_file_of_none (t : Nat) (f : FsFile) (conn : Connection)
    (h : calculate_checksum f 4096 = none) : process_file t f conn = conn := by
  unfold process_file
  rw [h]

theorem process_file_of_some (t : Nat) (f : FsFile) (conn : Connection) (s : String)
    (h : calculate_checksum f 4096 = some s) :
    process_file t f conn = (insert_row conn t (mkRecord f s)).getD conn := by
  unfold process_file
  rw [h]
  show (if s = "" then conn else _) = _
  rw [if_neg (calculate_checksum_ne_empty f 4096 s h)]
  cases insert_row conn t (mkRecord f s) with
  | none => rfl
  | some conn2 => rfl

/-- On any thread other than the connection's creating thread, `process_file`
leaves the table untouched: `conn.cursor()` raises before the write, and the
exception is swallowed by the never-queried future. -/
theorem process_file_cross_thread (t : Nat) (f : FsFile) (conn : Connection)
    (h : t ≠ conn.owner) : process_file t f conn = conn := by
  cases hc : calculate_checksum f 4096 with
  | none => exact process_file_of_none t f conn hc
  | some s =>
      rw [process_file_of_some t f conn s hc]
      unfold insert_row
      rw [if_neg h]
      rfl

theorem scan_directory_foldl_cross_thread (threadOf : Nat → Nat) (conn : Connection)
    (h : ∀ i, threadOf i ≠ conn.owner) :
    ∀ (files : List FsFile) (k : Nat),
      (files.enumFrom k).foldl (fun c p => process_file (threadOf p.1) p.2 c) conn = conn := by
  intro files
  induction files with
  | nil => intro k; rfl
  | cons f fs ih =>
      intro k
      rw [List.enumFrom_cons]
      show (fs.enumFrom (k + 1)).foldl _ (process_file (threadOf k) f conn) = conn
      rw [process_file_cross_thread (threadOf k) f conn (h k)]
      exact ih (k + 1)

/-- The whole scan pass leaves the table exactly as `setup_database` returned
it whenever every task runs off the connection's creating thread — which is
what `ThreadPoolExecutor` always does with the main thread's connection. -/
theorem scan_directory_cross_thread (threadOf : Nat → Nat) (conn : Connection)
    (files : List FsFile) (h : ∀ i, threadOf i ≠ conn.owner) :
    scan_directory threadOf conn files = conn :=
  scan_directory_foldl_cross_thread threadOf conn h files 0

theorem pool_threads_off_main : ∀ i, poolThreads i ≠ mainThread :=
  fun i => Nat.succ_ne_zero i

theorem mem_distinctChecksums_foldl (l : List FileRecord) :
    ∀ (acc : List String) (x : String),
      (x ∈ l.foldl (fun acc r => if r.checksum ∈ acc then acc else acc ++ [r.checksum]) acc)
        ↔ (x ∈ acc ∨ ∃ r ∈ l, r.checksum = x) := by
  induction l with
  | nil => intro acc x; simp
  | cons r rs ih =>
      intro acc x
      show (x ∈ rs.foldl _ (if r.checksum ∈ acc then acc else acc ++ [r.checksum])) ↔ _
      rw [ih]
      have hstep : (x ∈ if r.checksum ∈ acc then acc else acc ++ [r.checksum])
          ↔ (x ∈ acc ∨ x = r.checksum) := by
        by_cases hmem : r.checksum ∈ acc
        · rw [if_pos hmem]
          constructor
          · intro hx; exact Or.inl hx
          · intro hx
            cases hx with
            | inl hx => exact hx
            | inr hx => rw [hx]; exact hmem
        · rw [if_neg hmem]
          simp [List.mem_append]
      rw [hstep]
      simp only [List.mem_cons]
      constructor
      · rintro (⟨hx | hx⟩ | ⟨r2, hr2, hcs⟩)
        · exact Or.inl hx
        · exact Or.inr ⟨r, Or.inl rfl, hx.symm⟩
        · exact Or.inr ⟨r2, Or.inr hr2, hcs⟩
      · rintro (hx | ⟨r2, hr2 | hr2, hcs⟩)
        · exact Or.inl (Or.inl hx)
        · exact Or.inl (Or.inr (by rw [hr2] at hcs; exact hcs.symm))
        · exact Or.inr ⟨r2, hr2, hcs⟩

theorem mem_distinctChecksums (store : List FileRecord) (c : String) :
    c ∈ distinctChecksums store ↔ ∃ r ∈ store, r.checksum = c := by
  unfold distinctChecksums
  rw [mem_distinctChecksums_foldl]
  simp

theorem countChecksum_pos_iff (store : List FileRecord) (c : String) :
    0 < countChecksum store c ↔ ∃ r ∈ store, r.checksum = c := by
  unfold countChecksum
  rw [List.length_pos]
  constructor
  · intro h
    obtain ⟨r, hr⟩ := List.exists_mem_of_ne_nil _ h
    rw [List.mem_filter] at hr
    exact ⟨r, hr.1, by simpa using hr.2⟩
  · rintro ⟨r, hr, hc⟩
    intro hnil
    have : r ∈ store.filter (fun r => r.checksum = c) := by
      rw [List.mem_filter]
      exact ⟨hr, by simpa using hc⟩
    rw [hnil] at this
    simp at this

/-- Full characterization of `find_duplicates`: a triple is returned exactly
when its checksum is carried by at least two rows, with the exact row count
and the exact size sum. -/
theorem mem_find_duplicates (store : List FileRecord) (c : String) (n s : Nat) :
    (c, n, s) ∈ find_duplicates store
      ↔ (2 ≤ countChecksum store c ∧ n = countChecksum store c ∧ s = sizeSum store c) := by
  unfold find_duplicates
  rw [List.mem_filterMap]
  constructor
  · rintro ⟨a, ha, hEq⟩
    by_cases h2 : 2 ≤ countChecksum store a
    · rw [if_pos h2] at hEq
      have h3 := Option.some.inj hEq
      rw [Prod.mk.injEq, Prod.mk.injEq] at h3
      obtain ⟨rfl, hn, hs⟩ := h3
      exact ⟨h2, hn.symm, hs.symm⟩
    · rw [if_neg h2] at hEq
      exact absurd hEq (by simp)
  · rintro ⟨h2, hn, hs⟩
    refine ⟨c, ?_, ?_⟩
    · rw [mem_distinctChecksums]
      exact (countChecksum_pos_iff store c).mp (by omega)
    · rw [if_pos h2, hn, hs]

theorem length_recordsWithChecksum (store : List FileRecord) (c : String) :
    (recordsWithChecksum store c).length = countChecksum store c := by
  simp [recordsWithChecksum, countChecksum]

theorem scan_directory_count_calls (threadOf : Nat → Nat) :
    ∀ (files : List FsFile) (k : Nat) (st : Connection × Nat),
      ((files.enumFrom k).foldl
          (fun st p => (process_file (threadOf p.1) p.2 st.1, st.2 + 1)) st).2
        = st.2 + files.length := by
  intro files
  induction files with
  | nil => intro k st; rfl
  | cons f fs ih =>
      intro k st
      rw [List.enumFrom_cons]
      show ((fs.enumFrom (k + 1)).foldl _
          (process_file (threadOf k) f st.1, st.2 + 1)).2 = _
      rw [ih (k + 1) (process_file (threadOf k) f st.1, st.2 + 1)]
      show st.2 + 1 + fs.length = st.2 + (fs.length + 1)
      omega

theorem scan_with_store_faults_foldl (insertOk : Nat → Bool) (files : List FsFile) :
    ∀ (acc : List FileRecord) (k : Nat),
      files.foldl
          (fun st f =>
            match calculate_checksum f 4096 with
            | none => st
            | some s =>
                if s = "" then st
                else if insertOk st.2 then (st.1 ++ [mkRecord f s], st.2 + 1)
                else (st.1, st.2 + 1))
          (acc, k)
        = (acc ++ ((((successRecords files).enumFrom k).filter
              (fun p => insertOk p.1)).map (fun p => p.2)),
           k + (successRecords files).length) := by
  induction files with
  | nil => intro acc k; simp [successRecords]
  | cons f fs ih =>
      intro acc k
      cases hc : calculate_checksum f 4096 with
      | none =>
          show fs.foldl _
              (match calculate_checksum f 4096 with
               | none => (acc, k)
               | some s =>
                   if s = "" then (acc, k)
                   else if insertOk k then (acc ++ [mkRecord f s], k + 1) else (acc, k + 1)) = _
          rw [hc]
          show fs.foldl _ (acc, k) = _
          rw [ih]
          simp [successRecords, List.filterMap_cons, hc]
      | some s =>
          have hne : ¬(s = "") := calculate_checksum_ne_empty f 4096 s hc
          show fs.foldl _
              (match calculate_checksum f 4096 with
               | none => (acc, k)
               | some s =>
                   if s = "" then (acc, k)
                   else if insertOk k then (acc ++ [mkRecord f s], k + 1) else (acc, k + 1)) = _
          rw [hc]
          show fs.foldl _
              (if s = "" then (acc, k)
               else if insertOk k then (acc ++ [mkRecord f s], k + 1) else (acc, k + 1)) = _
          rw [if_neg hne]
          have hsucc : successRecords (f :: fs) = mkRecord f s :: successRecords fs := by
            simp [successRecords, List.filterMap_cons, hc]
          by_cases hk : insertOk k = true
          · rw [if_pos hk, ih]
            rw [hsucc, Prod.mk.injEq]
            constructor
            · show acc ++ [mkRecord f s] ++ _ = acc ++ _
              rw [List.enumFrom_cons, List.filter_cons, hk]
              simp [List.append_assoc]
            · simp [List.length_cons]; omega
          · rw [if_neg hk, ih]
            rw [hsucc, Prod.mk.injEq]
            constructor
            · show acc ++ _ = acc ++ _
              rw [List.enumFrom_cons, List.filter_cons]
              simp only [Bool.not_eq_true] at hk
              rw [hk]
              simp
            · simp [List.length_cons]; omega

/-! ## Claim theorems -/

/-- The single one-byte readable file (content `"X"`) of the C1 and C5
failing inputs. -/
def fileX : FsFile := ⟨"a.txt", 1, some [88]⟩

/-- C1 (evaluation at the failing input): a clean scan over a directory with
one readable file enumerates 1 file, fails 0 checksums and attempts the
checksum exactly once, yet the table ends with 0 rows, not 1 = enumerated −
failures: every worker's `conn.cursor()` raises `sqlite3.ProgrammingError`
(the connection was created on the main thread, `check_same_thread` default)
and the `as_completed` loop never retrieves the exception, so no insert ever
lands. -/
theorem c1_clean_scan_zero_rows :
    (run_program none poolThreads [fileX]).rows.length = 0
    ∧ ([fileX].filter (fun f => (calculate_checksum f 4096).isNone)).length = 0
    ∧ [fileX].length
        - ([fileX].filter (fun f => (calculate_checksum f 4096).isNone)).length = 1
    ∧ (scan_directory_count poolThreads (setup_database none) [fileX]).2 = [fileX].length
    ∧ (run_program none poolThreads [fileX]).rows.length
        ≠ [fileX].length
          - ([fileX].filter (fun f => (calculate_checksum f 4096).isNone)).length := by
  have hrun : run_program none poolThreads [fileX] = setup_database none :=
    scan_directory_cross_thread poolThreads (setup_database none) [fileX]
      (fun i => Nat.succ_ne_zero i)
  refine ⟨by rw [hrun]; rfl, rfl, rfl, ?_, by rw [hrun]; decide⟩
  exact scan_directory_count_calls poolThreads [fileX] 0 (setup_database none, 0)

/-- C3: `find_duplicates` (the `groupByChecksum` query) returns a group for a
checksum exactly when at least two rows carry it, and a returned group's count
and total size are exactly the row count and size sum for that checksum. -/
theorem c3_group_by_checksum (store : List FileRecord) (c : String) :
    ((∃ n s, (c, n, s) ∈ find_duplicates store) ↔ 2 ≤ countChecksum store c)
    ∧ ∀ n s, (c, n, s) ∈ find_duplicates store →
        n = countChecksum store c ∧ s = sizeSum store c := by
  constructor
  · constructor
    · rintro ⟨n, s, h⟩
      exact ((mem_find_duplicates store c n s).mp h).1
    · intro h2
      exact ⟨countChecksum store c, sizeSum store c,
        (mem_find_duplicates store c _ _).mpr ⟨h2, rfl, rfl⟩⟩
  · intro n s h
    have h3 := (mem_find_duplicates store c n s).mp h
    exact ⟨h3.2.1, h3.2.2⟩

/-- Concrete three-row store used to witness C3. -/
def storeW3 : List FileRecord :=
  [⟨"a", "h", 3, ".t"⟩, ⟨"b", "h", 4, ".t"⟩, ⟨"c", "g", 5, ".t"⟩]

/-- Witness for C3 on a concrete store: checksum `h` is carried by two of the
three rows, so a group exists for it and the count and size sum are exact. -/
theorem c3_group_by_checksum_witness :
    (∃ n s, ("h", n, s) ∈ find_duplicates storeW3)
    ∧ (2 = countChecksum storeW3 "h" ∧ 7 = sizeSum storeW3 "h") := by
  have h := c3_group_by_checksum storeW3 "h"
  exact ⟨h.1.mpr (by decide), h.2 2 7 (by decide)⟩

/-- C2: `display_summary` computes `totalDuplicates` as Σ over groups of
(count − 1) and `totalReclaimableBytes` as Σ over groups of
(totalSize − totalSize / count) with floor division, where count and totalSize
are the exact per-checksum row count and size sum; and a group all of whose
member rows have the identical size `S` reclaims exactly `S * (count − 1)`. -/
theorem c2_summary_sums (store : List FileRecord) :
    total_duplicates store
      = ((find_duplicates store).map (fun g => countChecksum store g.1 - 1)).sum
    ∧ total_space_recovered store
      = ((find_duplicates store).map
          (fun g => sizeSum store g.1 - sizeSum store g.1 / countChecksum store g.1)).sum
    ∧ ∀ c n s S, (c, n, s) ∈ find_duplicates store →
        (∀ r ∈ store, r.checksum = c → r.size = S) →
        s - s / n = S * (n - 1) := by
  refine ⟨?_, ?_, ?_⟩
  · unfold total_duplicates
    refine congrArg List.sum (List.map_congr_left ?_)
    rintro ⟨gc, gn, gs⟩ hg
    rw [mem_find_duplicates] at hg
    simp [hg.2.1]
  · unfold total_space_recovered
    refine congrArg List.sum (List.map_congr_left ?_)
    rintro ⟨gc, gn, gs⟩ hg
    rw [mem_find_duplicates] at hg
    simp [hg.2.1, hg.2.2]
  · intro c n s S hmem hS
    rw [mem_find_duplicates] at hmem
    obtain ⟨h2, hn, hs⟩ := hmem
    have hmap2 : ∀ y ∈ (store.filter (fun r => r.checksum = c)).map (fun r => r.size), y = S := by
      intro y hy
      rw [List.mem_map] at hy
      obtain ⟨r, hr, rfl⟩ := hy
      rw [List.mem_filter] at hr
      exact hS r hr.1 (by simpa using hr.2)
    have hrep := List.eq_replicate_of_mem hmap2
    have hlen : ((store.filter (fun r => r.checksum = c)).map (fun r => r.size)).length
        = countChecksum store c := by
      simp [countChecksum]
    rw [hlen] at hrep
    have hsum : sizeSum store c = countChecksum store c * S := by
      unfold sizeSum
      rw [hrep, List.sum_replicate, smul_eq_mul]
    have h0 : 0 < countChecksum store c := by omega
    rw [hs, hn, hsum, Nat.mul_div_cancel_left S h0, mul_comm S, tsub_mul, one_mul]

/-- Concrete store used to witness C2. -/
def storeW2 : List FileRecord :=
  [⟨"a", "h", 5, ".t"⟩, ⟨"b", "h", 5, ".t"⟩]

/-- Witness for C2 on a concrete store of two size-5 rows sharing a checksum:
the group reclaims exactly `5 * (2 − 1)`. -/
theorem c2_summary_sums_witness : (10 : Nat) - 10 / 2 = 5 * (2 - 1) :=
  (c2_summary_sums storeW2).2.2 "h" 2 10 5 (by decide) (by decide)

/-- C4: every entry of the deletion plan keeps exactly the first path fetched
for the group's checksum (insertion order) and offers all remaining paths for
deletion: the fetched path list is keeper followed by the deletables, there
are count − 1 deletables, and the keeper is a member of the group. -/
theorem c4_deletion_plan (store : List FileRecord) (c keeper : String) (dels : List String)
    (h : (c, keeper, dels) ∈ delete_duplicates_plan store) :
    recordsWithChecksum store c = keeper :: dels
    ∧ dels.length = countChecksum store c - 1
    ∧ keeper ∈ recordsWithChecksum store c := by
  unfold delete_duplicates_plan at h
  rw [List.mem_map] at h
  obtain ⟨⟨gc, gn, gs⟩, hg, hEq⟩ := h
  rw [mem_find_duplicates] at hg
  have h2 := hg.1
  simp only [Prod.mk.injEq] at hEq
  obtain ⟨rfl, hk, hd⟩ := hEq
  have hlen := length_recordsWithChecksum store gc
  cases hp : recordsWithChecksum store gc with
  | nil =>
      rw [hp] at hlen
      simp at hlen
      omega
  | cons p rest =>
      rw [hp] at hk hd hlen
      simp only [List.headD_cons] at hk
      have hdrop : (p :: rest).drop 1 = rest := rfl
      rw [hdrop] at hd
      subst hk
      subst hd
      refine ⟨rfl, ?_, List.mem_cons_self _ _⟩
      simp only [List.length_cons] at hlen
      omega

/-- Concrete store used to witness C4. -/
def storeW4 : List FileRecord :=
  [⟨"a", "h", 3, ".t"⟩, ⟨"b", "h", 4, ".t"⟩, ⟨"c", "g", 5, ".t"⟩]

/-- Witness for C4 on a concrete store: the duplicate group for `h` keeps the
first-inserted path `a` and offers exactly the remaining path `b`. -/
theorem c4_deletion_plan_witness :
    recordsWithChecksum storeW4 "h" = "a" :: ["b"]
    ∧ ["b"].length = countChecksum storeW4 "h" - 1
    ∧ "a" ∈ recordsWithChecksum storeW4 "h" :=
  c4_deletion_plan storeW4 "h" "a" ["b"] (by decide)

/-- A row already present in `duplicates.db` when a run starts — the database
file is persistent external state, so its table can hold rows from any
earlier writer. -/
def staleRow : FileRecord := ⟨"old.txt", "feed", 4, ".txt"⟩

/-- C5 counterexample: the store is not cleared or recreated at the start of
the next scan — `CREATE TABLE IF NOT EXISTS` keeps whatever rows
`duplicates.db` already holds — so FileRecords persist through `setup_database`
and the whole next run, and that run's index is not composed only of records
from that run: scanning an empty directory against a database holding two
stale rows sharing a checksum leaves both rows in place and makes the run
report a duplicate group that no scanned file produced. -/
theorem c5_stale_rows_counterexample :
    (run_program (some [staleRow, staleRow]) poolThreads []).rows = [staleRow, staleRow]
    ∧ find_duplicates (run_program (some [staleRow, staleRow]) poolThreads []).rows
        = [("feed", 2, 8)]
    ∧ total_duplicates (run_program (some [staleRow, staleRow]) poolThreads []).rows = 1
    ∧ (run_program (some [staleRow, staleRow]) poolThreads []).rows ≠ [] := by
  refine ⟨rfl, by decide, by decide, by decide⟩

/-- C5 amended: nothing clears the store at the start of a run, so existing
rows persist indefinitely; but a run also never adds rows — every worker
insert raises `sqlite3.ProgrammingError` cross-thread and is swallowed — so
each run leaves the table exactly as `setup_database` found it. Consequently
running the scan twice against an unchanged directory tree starting from no
database yields identical (empty) row counts and identical (empty)
duplicate-group membership. -/
theorem c5_runs_leave_table_unchanged (prior : Option (List FileRecord))
    (threadOf : Nat → Nat) (files : List FsFile)
    (h : ∀ i, threadOf i ≠ mainThread) :
    (run_program prior threadOf files).rows = (setup_database prior).rows
    ∧ (run_program (some (run_program none threadOf files).rows) threadOf files).rows
        = (run_program none threadOf files).rows
    ∧ find_duplicates
          (run_program (some (run_program none threadOf files).rows) threadOf files).rows
        = find_duplicates (run_program none threadOf files).rows
    ∧ (run_program none threadOf files).rows = [] := by
  have hscan : ∀ p : Option (List FileRecord),
      run_program p threadOf files = setup_database p := fun p =>
    scan_directory_cross_thread threadOf (setup_database p) files (fun i => h i)
  refine ⟨by rw [hscan prior], ?_, ?_, by rw [hscan none]; rfl⟩
  · rw [hscan (some (run_program none threadOf files).rows)]
    rfl
  · rw [hscan (some (run_program none threadOf files).rows)]
    rfl

/-- Witness for the amended C5 at a concrete prior table and file list, via
the theorem: the run leaves the stale table untouched, and a run from no
database ends with an empty table. -/
theorem c5_runs_leave_table_unchanged_witness :
    (run_program (some [staleRow, staleRow]) poolThreads [fileX]).rows
      = (setup_database (some [staleRow, staleRow])).rows
    ∧ (run_program none poolThreads [fileX]).rows = [] := by
  have h := c5_runs_leave_table_unchanged (some [staleRow, staleRow]) poolThreads [fileX]
    (fun i => Nat.succ_ne_zero i)
  exact ⟨h.1, h.2.2.2⟩

/-- C6: for every readable file the checksum is the hex SHA-256 digest of the
file's full byte content — the 4096-byte chunks fed into the incremental
accumulator reassemble to exactly the content, so the digest is independent of
chunk boundaries, path and metadata — and any two files with identical byte
content yield equal checksums. -/
theorem c6_checksum_content_only (f1 f2 : FsFile) (b1 b2 : List Nat)
    (h1 : f1.content = some b1) (h2 : f2.content = some b2) :
    calculate_checksum f1 4096 = some (SHA256.sha256hex b1)
    ∧ (b1 = b2 → calculate_checksum f1 4096 = calculate_checksum f2 4096) := by
  refine ⟨calculate_checksum_eq f1 b1 h1, ?_⟩
  intro hb
  rw [calculate_checksum_eq f1 b1 h1, calculate_checksum_eq f2 b2 h2, hb]

/-- Witness for C6: two concrete files with identical three-byte content at
different paths and the checksum of the first, via the theorem. -/
theorem c6_checksum_content_only_witness :
    calculate_checksum ⟨"a.bin", 3, some [1, 2, 3]⟩ 4096
      = some (SHA256.sha256hex [1, 2, 3])
    ∧ calculate_checksum ⟨"a.bin", 3, some [1, 2, 3]⟩ 4096
      = calculate_checksum ⟨"b.bin", 3, some [1, 2, 3]⟩ 4096 := by
  have h := c6_checksum_content_only ⟨"a.bin", 3, some [1, 2, 3]⟩ ⟨"b.bin", 3, some [1, 2, 3]⟩
    [1, 2, 3] [1, 2, 3] rfl rfl
  exact ⟨h.1, h.2 rfl⟩

/-- The first file of the C7 counterexample run. -/
def fileA : FsFile := ⟨"a.txt", 1, some [1]⟩

/-- The second file of the C7 counterexample run. -/
def fileB : FsFile := ⟨"b.txt", 1, some [2]⟩

/-- Insert-fault pattern for C7: the first attempted `INSERT` raises and every
later one succeeds — precisely the situation in which the claimed
retry-once-then-fatal policy would recover the first record. -/
def firstInsertFails : Nat → Bool := fun k => k != 0

/-- C7 counterexample: under a fault pattern where the first insert fails and
any retry would succeed, the code makes exactly one insert attempt per file
(2 attempts for 2 files — no retry, which would make 3), silently drops
`a.txt`'s row, and still processes `b.txt` (no abort of remaining work). -/
theorem c7_retry_counterexample :
    (scan_with_store_faults firstInsertFails [fileA, fileB]).2 = 2
    ∧ (scan_with_store_faults firstInsertFails [fileA, fileB]).1
        = [mkRecord fileB (SHA256.sha256hex [2])]
    ∧ mkRecord fileA (SHA256.sha256hex [1])
        ∉ (scan_with_store_faults firstInsertFails [fileA, fileB]).1 := by
  have hA : calculate_checksum fileA 4096 = some (SHA256.sha256hex [1]) :=
    calculate_checksum_eq fileA [1] rfl
  have hB : calculate_checksum fileB 4096 = some (SHA256.sha256hex [2]) :=
    calculate_checksum_eq fileB [2] rfl
  have hsucc : successRecords [fileA, fileB]
      = [mkRecord fileA (SHA256.sha256hex [1]), mkRecord fileB (SHA256.sha256hex [2])] := by
    simp [successRecords, List.filterMap_cons, hA, hB]
  have hres : scan_with_store_faults firstInsertFails [fileA, fileB]
      = ([mkRecord fileB (SHA256.sha256hex [2])], 2) := by
    unfold scan_with_store_faults
    rw [scan_with_store_faults_foldl firstInsertFails [fileA, fileB] [] 0, hsucc]
    rfl
  rw [hres]
  refine ⟨rfl, rfl, ?_⟩
  intro hmem
  rw [List.mem_singleton] at hmem
  have hpaths : fileA.path = fileB.path := congrArg FileRecord.path hmem
  exact absurd hpaths (by decide)

/-- C7 amended: each successfully checksummed file's row is inserted by
exactly one attempt — the attempt counter equals the number of successful
checksums, independent of which attempts fail — a failed insert's row is
silently absent (the future's exception is never retrieved) and all remaining
files are still processed. -/
theorem c7_insert_attempted_once (insertOk : Nat → Bool) (files : List FsFile) :
    scan_with_store_faults insertOk files
      = (((((successRecords files).enumFrom 0).filter
            (fun p => insertOk p.1)).map (fun p => p.2)),
         (successRecords files).length) := by
  unfold scan_with_store_faults
  rw [scan_with_store_faults_foldl insertOk files [] 0]
  rw [Prod.mk.injEq]
  exact ⟨List.nil_append _, Nat.zero_add _⟩

/-- C8 counterexample: with the Index Store openable and a root that does not
exist or is not a directory (`os.walk` then yields nothing and raises
nothing), the program completes normally with exit code 0 and an empty scan,
contradicting the claimed non-zero exit for a bad root. -/
theorem c8_missing_root_exit_zero :
    (run_main true none).exitCode = 0 ∧ (run_main true none).store = [] :=
  ⟨rfl, rfl⟩

/-- C8 amended: the program exits 0 on normal completion — including when the
given root does not exist or is not a directory, which only makes the walk
empty — and exits non-zero exactly when the Index Store cannot be opened
(the `sqlite3.connect` exception is uncaught). -/
theorem c8_exit_codes (root : Option (List FsFile)) :
    (run_main true root).exitCode = 0
    ∧ (run_main false root).exitCode = 1
    ∧ (run_main true root).store
        = (scan_directory poolThreads (setup_database none) (walk_files root)).rows
    ∧ (run_main true none).store = [] :=
  ⟨rfl, rfl, rfl, rfl⟩

/-- C10: the truthiness test `if checksum:` in `process_file` coincides with
the checksum having succeeded — a successful digest is a 64-character hex
string, never falsy — so a zero-byte file is treated like any other readable
file: its checksum is the (non-empty) digest of the empty byte string, not a
failure, and its insert is attempted exactly as for any other file (the guard
never excludes a successfully computed digest; only a `None` is skipped). -/
theorem c10_empty_file_truthiness (t : Nat) (f : FsFile) (conn : Connection) :
    pyTruthy (calculate_checksum f 4096) = (calculate_checksum f 4096).isSome
    ∧ (calculate_checksum f 4096 = none → process_file t f conn = conn)
    ∧ (∀ s, calculate_checksum f 4096 = some s →
        process_file t f conn = (insert_row conn t (mkRecord f s)).getD conn)
    ∧ calculate_checksum ⟨"empty.bin", 0, some []⟩ 4096 = some (SHA256.sha256hex [])
    ∧ SHA256.sha256hex [] ≠ "" := by
  refine ⟨?_, process_file_of_none t f conn, fun s hs => process_file_of_some t f conn s hs,
    calculate_checksum_eq ⟨"empty.bin", 0, some []⟩ [] rfl, SHA256.sha256hex_ne_empty []⟩
  cases hc : calculate_checksum f 4096 with
  | none => rfl
  | some s =>
      have hne := calculate_checksum_ne_empty f 4096 s hc
      simp [pyTruthy, hne]

/-- Witness for C10: on a concrete connection, the zero-byte file's digest is
truthy so its insert is attempted (on the owner thread it lands as a row),
while an unreadable file is skipped before any insert, via the theorem. -/
theorem c10_empty_file_truthiness_witness :
    process_file 0 ⟨"empty.bin", 0, some []⟩ ⟨[], 0⟩
      = (insert_row ⟨[], 0⟩ 0 (mkRecord ⟨"empty.bin", 0, some []⟩ (SHA256.sha256hex []))).getD
          ⟨[], 0⟩
    ∧ process_file 1 ⟨"gone.bin", 7, none⟩ ⟨[], 0⟩ = ⟨[], 0⟩ := by
  have hA := c10_empty_file_truthiness 0 ⟨"empty.bin", 0, some []⟩ ⟨[], 0⟩
  have hB := c10_empty_file_truthiness 1 ⟨"gone.bin", 7, none⟩ ⟨[], 0⟩
  exact ⟨hA.2.2.1 (SHA256.sha256hex []) (by rfl), hB.2.1 rfl⟩

/-- The four distinct readable files of the N = 2, M = 2 concurrent-insert
stress test. -/
def stressFiles : List FsFile :=
  [⟨"w1a.bin", 1, some [1]⟩, ⟨"w1b.bin", 1, some [2]⟩,
   ⟨"w2a.bin", 1, some [3]⟩, ⟨"w2b.bin", 1, some [4]⟩]

/-- Thread assignment of the stress test: pool worker 1 handles the first two
records, pool worker 2 the last two. -/
def stressThreads : Nat → Nat := fun i => if i < 2 then 1 else 2

/-- C9 (evaluation at the failing input): N = 2 workers inserting M = 2
distinct records each through the worker insert path yield 0 rows, not
N*M = 4 — every write is lost. All four checksums succeed; the loss is
deterministic and independent of interleaving: each worker's `conn.cursor()`
raises `sqlite3.ProgrammingError` (the connection belongs to the main thread,
`check_same_thread` default) before the lock-protected write can happen, and
the exception is swallowed. -/
theorem c9_concurrent_inserts_all_lost :
    (run_program none stressThreads stressFiles).rows.length = 0
    ∧ stressFiles.length = 2 * 2
    ∧ (stressFiles.filter (fun f => (calculate_checksum f 4096).isSome)).length = 2 * 2
    ∧ (run_program none stressThreads stressFiles).rows.length ≠ 2 * 2 := by
  have h : ∀ i, stressThreads i ≠ (setup_database none).owner := by
    intro i
    show (if i < 2 then 1 else 2) ≠ 0
    split
    · omega
    · omega
  have hrun : run_program none stressThreads stressFiles = setup_database none :=
    scan_directory_cross_thread stressThreads (setup_database none) stressFiles h
  refine ⟨by rw [hrun]; rfl, rfl, rfl, by rw [hrun]; decide⟩

end DupeNuke
